import Mathlib

/-!
Verification of the origami-puzzles folding core.

Shallow embedding of the JavaScript sources:
  * `src/puzzle.js`      — `PuzzleManager.foldGraph`, `PuzzleManager.validateState`
  * `src/unnamed/part_000` (folding.js) — `FoldingEngine` history operations
    (`initialize`, `undo`, `canUndo`, `executeFold`, `reset`) and
    `calculateAffineTransform`.

Numbers: the JavaScript code computes with IEEE doubles; the embedding
idealises analytically exact arithmetic over ℚ.  The only non-rational
quantity in the source is the crease-line length `len = Math.sqrt(dx*dx+dy*dy)`,
which appears solely through the unit normal `n = (-dy/len, dx/len)`.  Both the
activation test `dist > 0.001` (with `dist = v·n − d`) and the reflection
`v − 2·dist·n` are expressed below in equivalent rational form:

  * `dist = s / len` where `s = (v − p1)·(-dy, dx)` and `len = √len2`,
    `len2 = dx² + dy²`; for `len > 0`,
    `dist > 1/1000  ↔  0 < s ∧ 1000000·s² > len2` (multiply through by the
    positive `len`, then square), which is decided exactly over ℚ;
  * `2·dist·n = (2·s/len)·(-dy/len, dx/len) = (-2·s·dy, 2·s·dx)/len2`,
    so the reflected point is rational in the inputs.

The real-valued signed distance `ndist` (defined with `Real.sqrt`) is used in
theorem statements so that they speak the spec's language; the bridge lemma
`activeB_eq_true_iff` proves the rational activation test equivalent to
`dist > 1/1000`.  For a degenerate line (`p1 = p2`) JavaScript produces `NaN`
normals and every comparison `dist > 0.001` is false, so no vertex is moved;
the embedding's rational test gives `s = 0` hence the same empty active set.
-/

namespace Origami

/-- A point in the plane, the embedding of a two-element coordinate array
`[x, y]`. -/
abbrev Vec : Type := ℚ × ℚ

/-- The FOLD-style mesh manipulated by `PuzzleManager` and `FoldingEngine`:
parallel arrays `vertices_coords`, `faces_vertices`, `faces_classes`,
`faces_flipped` (the last is created filled with `false` by
`PuzzleManager.loadPuzzle`, so it is modelled as always present). -/
structure Graph where
  vertices_coords : List Vec
  faces_vertices : List (List ℕ)
  faces_classes : List String
  faces_flipped : List Bool
deriving DecidableEq, Repr

/-- A crease line `{ p1: [x,y], p2: [x,y] }`. -/
structure Line where
  p1 : Vec
  p2 : Vec
deriving DecidableEq, Repr

/-- The fold-type tag passed as `type` (`'valley'` or `'mountain'`). -/
inductive FoldType where
  | valley : FoldType
  | mountain : FoldType
deriving DecidableEq, Repr

/-- `dx = p2.x − p1.x` of a crease line. -/
def ldx (line : Line) : ℚ := line.p2.1 - line.p1.1

/-- `dy = p2.y − p1.y` of a crease line. -/
def ldy (line : Line) : ℚ := line.p2.2 - line.p1.2

/-- Squared length `dx² + dy²` of the crease line;
the source's `len` is `√len2`. -/
def len2 (line : Line) : ℚ := ldx line * ldx line + ldy line * ldy line

/-- `s = (v − p1)·(-dy, dx)`: the source's signed distance
`dist = v·n − d` scaled by the positive line length
(`n = (-dy, dx)/len`, `d = p1·n`, so `dist = s/len`). -/
def sval (line : Line) (v : Vec) : ℚ :=
  (v.1 - line.p1.1) * (-(ldy line)) + (v.2 - line.p1.2) * ldx line

/-- The source's activation test `dist > 0.001` in exact rational form
(equivalent for `len > 0`; both sides false for `p1 = p2`, where JavaScript
produces `NaN`).  A vertex passing this test joins `verticesToMove`. -/
def activeB (line : Line) (v : Vec) : Bool :=
  decide (0 < sval line v ∧ len2 line < 1000000 * (sval line v * sval line v))

/-- The source's in-place reflection `v' = v − 2·dist·n`, in rational form
`v' = v + (2·s·dy, −2·s·dx)/len2`. -/
def reflectV (line : Line) (v : Vec) : Vec :=
  (v.1 + 2 * sval line v * ldy line / len2 line,
   v.2 - 2 * sval line v * ldx line / len2 line)

/-- Membership of vertex index `vi` in the source's `verticesToMove` set:
the index is in range and its coordinates pass the activation test. -/
def vertexMoves (g : Graph) (line : Line) (vi : ℕ) : Bool :=
  match g.vertices_coords[vi]? with
  | some v => activeB line v
  | none => false

/-- Embedding of `PuzzleManager.foldGraph(graph, line, type)`
(src/puzzle.js lines 82–139).  The `type` parameter is accepted and, as in
the source, never read.  Vertices in `verticesToMove` are reflected; a face
whose vertices all moved has its `flipped` flag toggled (`faces_flipped` is
parallel to `faces_vertices`, per the mesh invariant; `zipWith` realises the
indexed `forEach`). -/
def foldGraph (g : Graph) (line : Line) (_type : FoldType) : Graph :=
  { g with
    vertices_coords :=
      g.vertices_coords.map (fun v => if activeB line v then reflectV line v else v)
    faces_flipped :=
      List.zipWith
        (fun face fl => if face.all (fun vi => vertexMoves g line vi) then !fl else fl)
        g.faces_vertices g.faces_flipped }

/-- Embedding of `PuzzleManager.validateState(graph)`
(src/puzzle.js lines 141–174): the bounding box of `vertices_coords` must have
width and height `< 1.1`.  For an empty vertex list the JavaScript `forEach`
leaves `minX = Infinity`, `maxX = -Infinity`, so `width = -Infinity < 1.1`
and the function returns `true`; for a nonempty list the fold over the tail
starting from the head computes the same min/max as the `forEach` from
`±Infinity`. -/
def validateState (g : Graph) : Bool :=
  match g.vertices_coords with
  | [] => true
  | v :: vs =>
      let minX := vs.foldl (fun m w => min m w.1) v.1
      let maxX := vs.foldl (fun m w => max m w.1) v.1
      let minY := vs.foldl (fun m w => min m w.2) v.2
      let maxY := vs.foldl (fun m w => max m w.2) v.2
      decide (maxX - minX < 11/10 ∧ maxY - minY < 11/10)

/-- The real-valued signed distance of the source,
`dist = v·n − d = s/√len2`: the spec's "signed distance to the crease
line". -/
noncomputable def ndist (line : Line) (v : Vec) : ℝ :=
  ((sval line v : ℚ) : ℝ) / Real.sqrt ((len2 line : ℚ) : ℝ)

/-- The unit normal `n = (-dy, dx)/len` of the source. -/
noncomputable def nvec (line : Line) : ℝ × ℝ :=
  (-((ldy line : ℚ) : ℝ) / Real.sqrt ((len2 line : ℚ) : ℝ),
   ((ldx line : ℚ) : ℝ) / Real.sqrt ((len2 line : ℚ) : ℝ))

/-- Midpoint of two points. -/
def midpointV (a b : Vec) : Vec := ((a.1 + b.1) / 2, (a.2 + b.2) / 2)

/-- Error taxonomy of the spec (§7) relevant to folding. -/
inductive FoldError where
  | invalidCreaseLine : FoldError
deriving DecidableEq, Repr

/-- The caller-visible outcome of the source's fold helper: `foldGraph`
always returns the (possibly mutated) graph and has no error channel, so the
outcome is always `Except.ok`. -/
def foldGraphOutcome (g : Graph) (line : Line) (t : FoldType) :
    Except FoldError Graph :=
  Except.ok (foldGraph g line t)

/-- Follows the spec's words (§4.2 error conditions, §7): a degenerate
crease line (`p1 == p2`) is treated as a no-op fold and an
`InvalidCreaseLine` condition is reported; otherwise the fold proceeds.
Stated for comparison with `foldGraphOutcome`, the outcome the source
actually produces. -/
def foldGraphSpec (g : Graph) (line : Line) (t : FoldType) :
    Except FoldError Graph :=
  if line.p1 = line.p2 then Except.error FoldError.invalidCreaseLine
  else Except.ok (foldGraph g line t)

/-- The mutable state of a `FoldingEngine` (src/unnamed/part_000): the live
`graph`, the `history` stack of snapshots, and the `initialState` reference.
The rendering container and the `puzzleManager` back-pointer are presentation
glue; the manager's immutable loaded state is passed explicitly to the
operations that read it (`reset`).  Deep copies (`JSON.parse(JSON.stringify(…))`)
are identities on immutable Lean values. -/
structure EngineState where
  graph : Graph
  history : List Graph
  initialState : Graph
deriving DecidableEq, Repr

/-- The empty FOLD object `{}` produced by the constructor's `null` fields
before `initialize` runs. -/
def emptyGraph : Graph := ⟨[], [], [], []⟩

/-- Embedding of `FoldingEngine.initialize(initialState)` (lines 19–30):
if an argument is supplied it replaces `this.initialState`; the live graph
becomes a deep copy of `this.initialState`, and a snapshot is pushed onto the
existing history. -/
def engineInit (s : EngineState) (toLoad : Option Graph) : EngineState :=
  let ns := match toLoad with
    | some g => g
    | none => s.initialState
  { graph := ns, history := s.history ++ [ns], initialState := ns }

/-- The state of a freshly constructed engine (`history = []`) after
`initialize(pm.getInitialState())`, the load path wired in src/app.js. -/
def startEngine (pm : Graph) : EngineState :=
  engineInit { graph := emptyGraph, history := [], initialState := emptyGraph } (some pm)

/-- Embedding of `FoldingEngine.undo()` (lines 32–39): when more than one
history entry exists, pop the current state and restore the live graph from
the new last entry; otherwise do nothing.  (`List.getLastD` carries the
then-live graph as its never-used default: under `1 < length` the popped
history is nonempty.) -/
def engineUndo (s : EngineState) : EngineState :=
  if 1 < s.history.length then
    { s with history := s.history.dropLast,
             graph := (s.history.dropLast).getLastD s.graph }
  else s

/-- Embedding of `FoldingEngine.canUndo()` (lines 41–43). -/
def engineCanUndo (s : EngineState) : Bool :=
  decide (1 < s.history.length)

/-- Embedding of `FoldingEngine.executeFold(foldLine, foldType)`
(lines 50–64): mutate the live graph via `PuzzleManager.foldGraph`, then push
a snapshot. -/
def engineExecuteFold (s : EngineState) (line : Line) (t : FoldType) : EngineState :=
  let g := foldGraph s.graph line t
  { s with graph := g, history := s.history ++ [g] }

/-- Embedding of `FoldingEngine.reset()` (lines 66–76) on an engine wired to
a `PuzzleManager` whose loaded initial state is `pm`: when history is
nonempty, clear it and re-run `initialize(pm.getInitialState())`
(`resetGrid` is a no-op). -/
def engineReset (s : EngineState) (pm : Graph) : EngineState :=
  if 0 < s.history.length then
    engineInit { s with history := [] } (some pm)
  else s

/-- Run a sequence of `executeFold` requests. -/
def engineFolds (s : EngineState) (ops : List (Line × FoldType)) : EngineState :=
  ops.foldl (fun st op => engineExecuteFold st op.1 op.2) s

/-- The states a `FoldingEngine` loaded with puzzle state `pm` can reach
through its public operations. -/
inductive Reachable (pm : Graph) : EngineState → Prop where
  | start : Reachable pm (startEngine pm)
  | fold (s : EngineState) (line : Line) (t : FoldType) :
      Reachable pm s → Reachable pm (engineExecuteFold s line t)
  | undo (s : EngineState) : Reachable pm s → Reachable pm (engineUndo s)
  | reset (s : EngineState) : Reachable pm s → Reachable pm (engineReset s pm)

/-- The `{a, b, c, d, e, f}` affine matrix produced by
`calculateAffineTransform`: `(x, y) ↦ (a·x + c·y + e, b·x + d·y + f)`. -/
structure Affine where
  a : ℚ
  b : ℚ
  c : ℚ
  d : ℚ
  e : ℚ
  f : ℚ
deriving DecidableEq, Repr

/-- Apply an affine matrix to a point, the SVG
`matrix(a, b, c, d, e, f)` convention used by the source. -/
def applyAffine (m : Affine) (p : Vec) : Vec :=
  (m.a * p.1 + m.c * p.2 + m.e, m.b * p.1 + m.d * p.2 + m.f)

/-- Three points `[back: [x0,y0], [x1,y1], [x2,y2]]` as consumed by
`calculateAffineTransform` (it reads exactly the first three entries of its
array arguments). -/
abbrev Tri : Type := Vec × Vec × Vec

/-- The denominator determinant `den` of `calculateAffineTransform`. -/
def affineDen (src : Tri) : ℚ :=
  src.1.1 * (src.2.1.2 - src.2.2.2) - src.1.2 * (src.2.1.1 - src.2.2.1) +
    (src.2.1.1 * src.2.2.2 - src.2.2.1 * src.2.1.2)

/-- Embedding of `FoldingEngine.calculateAffineTransform(src, dst)`
(src/unnamed/part_000 lines 253–287): Cramer's-rule solution of
`M·src_i = dst_i`, with the identity matrix returned when `|den| < 1e-6`. -/
def calculateAffineTransform (src dst : Tri) : Affine :=
  let x0 := src.1.1; let y0 := src.1.2
  let x1 := src.2.1.1; let y1 := src.2.1.2
  let x2 := src.2.2.1; let y2 := src.2.2.2
  let u0 := dst.1.1; let v0 := dst.1.2
  let u1 := dst.2.1.1; let v1 := dst.2.1.2
  let u2 := dst.2.2.1; let v2 := dst.2.2.2
  let den := x0 * (y1 - y2) - y0 * (x1 - x2) + (x1 * y2 - x2 * y1)
  if |den| < 1/1000000 then ⟨1, 0, 0, 1, 0, 0⟩
  else
    { a := (u0 * (y1 - y2) - y0 * (u1 - u2) + (u1 * y2 - u2 * y1)) / den
      b := (v0 * (y1 - y2) - y0 * (v1 - v2) + (v1 * y2 - v2 * y1)) / den
      c := (x0 * (u1 - u2) - u0 * (x1 - x2) + (x1 * u2 - x2 * u1)) / den
      d := (x0 * (v1 - v2) - v0 * (x1 - x2) + (x1 * v2 - x2 * v1)) / den
      e := (x0 * (y1 * u2 - y2 * u1) - y0 * (x1 * u2 - x2 * u1) +
            (x1 * y2 * u0 - x2 * y1 * u0)) / den
      f := (x0 * (y1 * v2 - y2 * v1) - y0 * (x1 * v2 - x2 * v1) +
            (x1 * y2 * v0 - x2 * y1 * v0)) / den }

lemma len2_nonneg (line : Line) : 0 ≤ len2 line := by
  have hx : 0 ≤ ldx line * ldx line := mul_self_nonneg _
  have hy : 0 ≤ ldy line * ldy line := mul_self_nonneg _
  simpa [len2] using add_nonneg hx hy

lemma len2_pos_of_ne (line : Line) (h : line.p1 ≠ line.p2) : 0 < len2 line := by
  rcases lt_or_eq_of_le (len2_nonneg line) with hlt | heq
  · exact hlt
  · exfalso
    have h0 : ldx line * ldx line + ldy line * ldy line = 0 := by
      simpa [len2] using heq.symm
    have hsplit := (add_eq_zero_iff_of_nonneg (mul_self_nonneg _) (mul_self_nonneg _)).mp h0
    have hdx : ldx line = 0 := mul_self_eq_zero.mp hsplit.1
    have hdy : ldy line = 0 := mul_self_eq_zero.mp hsplit.2
    apply h
    have h1 : line.p2.1 = line.p1.1 := by simpa [ldx, sub_eq_zero] using hdx
    have h2 : line.p2.2 = line.p1.2 := by simpa [ldy, sub_eq_zero] using hdy
    exact Prod.ext_iff.mpr ⟨h1.symm, h2.symm⟩

lemma activeB_eq_true_iff (line : Line) (v : Vec) (h : 0 < len2 line) :
    activeB line v = true ↔ (1/1000 : ℝ) < ndist line v := by
  have hL : (0:ℝ) < ((len2 line : ℚ) : ℝ) := by exact_mod_cast h
  have hs : (0:ℝ) < Real.sqrt ((len2 line : ℚ) : ℝ) := Real.sqrt_pos.mpr hL
  simp only [activeB, decide_eq_true_eq, ndist]
  constructor
  · rintro ⟨h1, h2⟩
    have h1R : (0:ℝ) < ((sval line v : ℚ) : ℝ) := by exact_mod_cast h1
    have h2R : ((len2 line : ℚ) : ℝ) <
        1000000 * (((sval line v : ℚ) : ℝ) * ((sval line v : ℚ) : ℝ)) := by
      exact_mod_cast h2
    rw [lt_div_iff hs]
    have hsq : Real.sqrt ((len2 line : ℚ) : ℝ) < 1000 * ((sval line v : ℚ) : ℝ) := by
      rw [Real.sqrt_lt' (by positivity)]
      nlinarith
    nlinarith
  · intro hgt
    rw [lt_div_iff hs] at hgt
    have h1R : (0:ℝ) < ((sval line v : ℚ) : ℝ) := by nlinarith
    refine ⟨by exact_mod_cast h1R, ?_⟩
    have hlt : Real.sqrt ((len2 line : ℚ) : ℝ) < 1000 * ((sval line v : ℚ) : ℝ) := by
      nlinarith
    have hsq := (Real.sqrt_lt' (by positivity)).mp hlt
    have : ((len2 line : ℚ) : ℝ) <
        1000000 * (((sval line v : ℚ) : ℝ) * ((sval line v : ℚ) : ℝ)) := by nlinarith
    exact_mod_cast this

lemma sval_reflect (line : Line) (v : Vec) (h : len2 line ≠ 0) :
    sval line (reflectV line v) = - sval line v := by
  have expand : sval line (reflectV line v) =
      sval line v -
        2 * sval line v * (ldx line * ldx line + ldy line * ldy line) / len2 line := by
    unfold reflectV
    unfold sval
    ring
  rw [expand, show ldx line * ldx line + ldy line * ldy line = len2 line from rfl,
    mul_div_assoc, div_self h]
  ring

lemma sval_midpoint_reflect (line : Line) (v : Vec) (h : len2 line ≠ 0) :
    sval line (midpointV v (reflectV line v)) = 0 := by
  have expand : sval line (midpointV v (reflectV line v)) =
      sval line v -
        sval line v * (ldx line * ldx line + ldy line * ldy line) / len2 line := by
    unfold midpointV reflectV
    unfold sval
    ring
  rw [expand, show ldx line * ldx line + ldy line * ldy line = len2 line from rfl,
    mul_div_assoc, div_self h]
  ring

lemma ndist_reflect (line : Line) (v : Vec) (h : 0 < len2 line) :
    ndist line (reflectV line v) = - ndist line v := by
  unfold ndist
  rw [sval_reflect line v (ne_of_gt h)]
  push_cast
  ring

lemma ndist_midpoint_reflect (line : Line) (v : Vec) (h : 0 < len2 line) :
    ndist line (midpointV v (reflectV line v)) = 0 := by
  unfold ndist
  rw [sval_midpoint_reflect line v (ne_of_gt h)]
  simp

lemma reflectV_eq_sub_two_dist (line : Line) (v : Vec) (h : 0 < len2 line) :
    (((reflectV line v).1 : ℚ) : ℝ) = ((v.1 : ℚ) : ℝ) - 2 * ndist line v * (nvec line).1 ∧
    (((reflectV line v).2 : ℚ) : ℝ) = ((v.2 : ℚ) : ℝ) - 2 * ndist line v * (nvec line).2 := by
  have hL : (0:ℝ) < ((len2 line : ℚ) : ℝ) := by exact_mod_cast h
  have hss : Real.sqrt ((len2 line : ℚ) : ℝ) * Real.sqrt ((len2 line : ℚ) : ℝ) =
      ((len2 line : ℚ) : ℝ) := Real.mul_self_sqrt hL.le
  have hr0 : Real.sqrt ((len2 line : ℚ) : ℝ) ≠ 0 :=
    ne_of_gt (Real.sqrt_pos.mpr hL)
  have hL0 : ((len2 line : ℚ) : ℝ) ≠ 0 := ne_of_gt hL
  constructor
  · simp only [reflectV, ndist, nvec]
    push_cast
    rw [← hss]
    field_simp
  · simp only [reflectV, ndist, nvec]
    push_cast
    rw [← hss]
    field_simp

lemma foldGraph_coords_getElem (g : Graph) (line : Line) (t : FoldType) (i : ℕ) (v : Vec)
    (hv : g.vertices_coords[i]? = some v) :
    (foldGraph g line t).vertices_coords[i]? =
      some (if activeB line v then reflectV line v else v) := by
  simp [foldGraph, List.getElem?_map, hv]

lemma foldGraph_flipped_getElem (g : Graph) (line : Line) (t : FoldType) (i : ℕ)
    (face : List ℕ) (fl : Bool)
    (hface : g.faces_vertices[i]? = some face) (hfl : g.faces_flipped[i]? = some fl) :
    (foldGraph g line t).faces_flipped[i]? =
      some (if face.all (fun vi => vertexMoves g line vi) then !fl else fl) := by
  simp [foldGraph, List.getElem?_zipWith', hface, hfl]

lemma foldGraph_classes (g : Graph) (line : Line) (t : FoldType) :
    (foldGraph g line t).faces_classes = g.faces_classes := rfl

lemma foldGraph_faces (g : Graph) (line : Line) (t : FoldType) :
    (foldGraph g line t).faces_vertices = g.faces_vertices := rfl

/-- Index `vi` belongs to the spec's "active set": it addresses a vertex
whose signed distance to the crease line exceeds ε = 1e-3. -/
def ActiveIdx (g : Graph) (line : Line) (vi : ℕ) : Prop :=
  ∃ v, g.vertices_coords[vi]? = some v ∧ (1/1000 : ℝ) < ndist line v

lemma vertexMoves_iff_activeIdx (g : Graph) (line : Line) (vi : ℕ) (h : 0 < len2 line) :
    vertexMoves g line vi = true ↔ ActiveIdx g line vi := by
  constructor
  · intro hb
    unfold vertexMoves at hb
    cases hv : g.vertices_coords[vi]? with
    | none => rw [hv] at hb; simp at hb
    | some v =>
        rw [hv] at hb
        exact ⟨v, hv, (activeB_eq_true_iff line v h).mp hb⟩
  · rintro ⟨v, hv, hgt⟩
    unfold vertexMoves
    rw [hv]
    exact (activeB_eq_true_iff line v h).mpr hgt

/-- The vertical crease line through the origin, used by concrete checks. -/
def yAxis : Line := ⟨(0, 0), (0, 1)⟩

/-- A unit-square face strictly on the active (negative-x) side of `yAxis`. -/
def sqGraph : Graph :=
  ⟨[(-2, 0), (-1, 0), (-1, 1), (-2, 1)], [[0, 1, 2, 3]], ["image"], [false]⟩

/-- C1: for every crease line with `p1 ≠ p2` and every mesh, `foldGraph`
replaces each vertex `v` with signed distance `dist = v·n − d > 1e-3` by
`v − 2·dist·n` and leaves each vertex with `dist ≤ 1e-3` unchanged; the
moved vertex's signed distance is negated and the midpoint of the original
and the reflected point lies on the crease line. -/
theorem fold_reflection_correct (g : Graph) (line : Line) (t : FoldType)
    (hnd : line.p1 ≠ line.p2) (i : ℕ) (v : Vec)
    (hv : g.vertices_coords[i]? = some v) :
    ((1/1000 : ℝ) < ndist line v →
        (foldGraph g line t).vertices_coords[i]? = some (reflectV line v) ∧
        ((reflectV line v).1 : ℝ) = (v.1 : ℝ) - 2 * ndist line v * (nvec line).1 ∧
        ((reflectV line v).2 : ℝ) = (v.2 : ℝ) - 2 * ndist line v * (nvec line).2 ∧
        ndist line (reflectV line v) = - ndist line v ∧
        ndist line (midpointV v (reflectV line v)) = 0) ∧
    (ndist line v ≤ 1/1000 →
        (foldGraph g line t).vertices_coords[i]? = some v) := by
  have hpos := len2_pos_of_ne line hnd
  have hiff := activeB_eq_true_iff line v hpos
  constructor
  · intro hgt
    have hT : activeB line v = true := hiff.mpr hgt
    refine ⟨?_, (reflectV_eq_sub_two_dist line v hpos).1,
      (reflectV_eq_sub_two_dist line v hpos).2,
      ndist_reflect line v hpos, ndist_midpoint_reflect line v hpos⟩
    rw [foldGraph_coords_getElem g line t i v hv, hT]
    simp
  · intro hle
    have hF : activeB line v = false := by
      cases hab : activeB line v
      · rfl
      · exact absurd (hiff.mp hab) (not_lt.mpr hle)
    rw [foldGraph_coords_getElem g line t i v hv, hF]
    simp

/-- Witness for C1: the vertex `(-1, 0)` has signed distance `1` to `yAxis`,
is reflected by the fold, and its signed distance is negated. -/
theorem fold_reflection_correct_witness :
    (foldGraph ⟨[(-1, 0)], [[0]], ["image"], [false]⟩ yAxis
        FoldType.valley).vertices_coords[0]? = some (reflectV yAxis (-1, 0)) ∧
    ndist yAxis (reflectV yAxis (-1, 0)) = - ndist yAxis (-1, 0) := by
  have happ := fold_reflection_correct ⟨[(-1, 0)], [[0]], ["image"], [false]⟩ yAxis
    FoldType.valley (by decide) 0 (-1, 0) rfl
  have h1 : ndist yAxis (-1, 0) = 1 := by
    norm_num [ndist, yAxis, sval, len2, ldx, ldy, Real.sqrt_one]
  have hdist : (1/1000 : ℝ) < ndist yAxis (-1, 0) := by
    rw [h1]; norm_num
  exact ⟨(happ.1 hdist).1, (happ.1 hdist).2.2.2.1⟩

/-- C2: a fold along a non-degenerate crease line toggles the `flipped` flag
of exactly the faces all of whose vertices are in the active set; a face with
a vertex outside the active set keeps its flag, and the per-face classes and
vertex lists are untouched. -/
theorem fold_flips_exactly_full_faces (g : Graph) (line : Line) (t : FoldType)
    (hnd : line.p1 ≠ line.p2) (i : ℕ) (face : List ℕ) (fl : Bool)
    (hface : g.faces_vertices[i]? = some face) (hfl : g.faces_flipped[i]? = some fl) :
    ((∀ vi ∈ face, ActiveIdx g line vi) →
        (foldGraph g line t).faces_flipped[i]? = some (!fl)) ∧
    ((∃ vi ∈ face, ¬ ActiveIdx g line vi) →
        (foldGraph g line t).faces_flipped[i]? = some fl) ∧
    (foldGraph g line t).faces_classes = g.faces_classes ∧
    (foldGraph g line t).faces_vertices = g.faces_vertices := by
  have hpos := len2_pos_of_ne line hnd
  have hkey := foldGraph_flipped_getElem g line t i face fl hface hfl
  refine ⟨?_, ?_, rfl, rfl⟩
  · intro hall
    have hb : face.all (fun vi => vertexMoves g line vi) = true := by
      rw [List.all_eq_true]
      intro vi hvi
      exact (vertexMoves_iff_activeIdx g line vi hpos).mpr (hall vi hvi)
    rw [hkey, hb]
    simp
  · rintro ⟨vi, hvi, hnot⟩
    cases hb : face.all (fun vi => vertexMoves g line vi) with
    | false =>
        rw [hkey, hb]
        simp
    | true =>
        exact absurd
          ((vertexMoves_iff_activeIdx g line vi hpos).mp (List.all_eq_true.mp hb vi hvi))
          hnot

/-- Witness for C2: all four vertices of `sqGraph`'s single face are active
for `yAxis`, so the fold toggles its flag and keeps its class list. -/
theorem fold_flips_exactly_full_faces_witness :
    (foldGraph sqGraph yAxis FoldType.mountain).faces_flipped[0]? = some true ∧
    (foldGraph sqGraph yAxis FoldType.mountain).faces_classes = sqGraph.faces_classes := by
  have happ := fold_flips_exactly_full_faces sqGraph yAxis FoldType.mountain (by decide)
    0 [0, 1, 2, 3] false rfl rfl
  have hall : ∀ vi ∈ ([0, 1, 2, 3] : List ℕ), ActiveIdx sqGraph yAxis vi := by
    have hmv : ∀ j : ℕ, vertexMoves sqGraph yAxis j = true → ActiveIdx sqGraph yAxis j :=
      fun j h =>
        (vertexMoves_iff_activeIdx sqGraph yAxis j (by norm_num [len2, ldx, ldy, yAxis])).mp h
    intro vi hvi
    fin_cases hvi <;>
      exact hmv _ (by norm_num [vertexMoves, sqGraph, yAxis, activeB, sval, len2, ldx, ldy])
  exact ⟨happ.1 hall, happ.2.2.1⟩

/-- C9: the fold-type tag (`valley`/`mountain`) has no influence on the mesh
`foldGraph` produces: the source never reads its `type` parameter. -/
theorem fold_type_no_influence (g : Graph) (line : Line) (t1 t2 : FoldType) :
    foldGraph g line t1 = foldGraph g line t2 := rfl

lemma activeB_degenerate (line : Line) (v : Vec) (h : line.p1 = line.p2) :
    activeB line v = false := by
  have hdx : ldx line = 0 := by simp [ldx, h]
  have hdy : ldy line = 0 := by simp [ldy, h]
  simp [activeB, sval, hdx, hdy]

lemma zipWith_eq_right {α β : Type} (f : α → β → β) :
    ∀ (l1 : List α) (l2 : List β), l1.length = l2.length →
      (∀ a ∈ l1, ∀ b, f a b = b) → List.zipWith f l1 l2 = l2
  | [], [], _, _ => rfl
  | [], _ :: _, h, _ => by simp at h
  | _ :: _, [], h, _ => by simp at h
  | a :: l1, b :: l2, h, hf => by
      have hlen : l1.length = l2.length := by simpa using h
      have hrec := zipWith_eq_right f l1 l2 hlen (fun x hx => hf x (List.mem_cons_of_mem a hx))
      simp [List.zipWith, hf a (List.mem_cons_self a l1) b, hrec]

/-- C3 counterexample: on a degenerate crease line (`p1 = p2 = (0,0)`) the
source's fold helper silently returns the unchanged graph (`Except.ok`),
whereas the spec's words demand an `InvalidCreaseLine` report
(`foldGraphSpec`, the definition following the spec).  The claim's
"reports an InvalidCreaseLine condition to the caller" is false of the code. -/
theorem degenerate_fold_silent_cex :
    foldGraphOutcome ⟨[(2, 0)], [[0]], ["image"], [false]⟩ ⟨(0, 0), (0, 0)⟩
        FoldType.valley =
      Except.ok ⟨[(2, 0)], [[0]], ["image"], [false]⟩ ∧
    foldGraphSpec ⟨[(2, 0)], [[0]], ["image"], [false]⟩ ⟨(0, 0), (0, 0)⟩
        FoldType.valley =
      Except.error FoldError.invalidCreaseLine := by
  constructor
  · norm_num [foldGraphOutcome, foldGraph, vertexMoves, activeB, sval, len2, ldx, ldy]
  · norm_num [foldGraphSpec]

/-- C3 amended: on a degenerate crease line (`p1 = p2`) the fold is a silent
no-op — no vertex passes the ε test (JavaScript computes `NaN` normals, and
every `NaN` comparison is false), so the mesh is returned completely
unchanged provided every face has at least one vertex — but no
`InvalidCreaseLine` condition is reported: the caller always receives the
plain graph. -/
theorem degenerate_fold_noop (g : Graph) (line : Line) (t : FoldType)
    (hdeg : line.p1 = line.p2)
    (hfaces : ∀ face ∈ g.faces_vertices, face ≠ [])
    (hlen : g.faces_vertices.length = g.faces_flipped.length) :
    foldGraph g line t = g ∧ foldGraphOutcome g line t = Except.ok g := by
  have hall : ∀ v : Vec, activeB line v = false := fun v => activeB_degenerate line v hdeg
  have hmv : ∀ vi : ℕ, vertexMoves g line vi = false := by
    intro vi
    unfold vertexMoves
    cases hv : g.vertices_coords[vi]? with
    | none => rfl
    | some v => exact hall v
  have hcoords :
      g.vertices_coords.map (fun v => if activeB line v then reflectV line v else v) =
        g.vertices_coords := by
    have : ∀ v : Vec, (if activeB line v then reflectV line v else v) = v := by
      intro v
      rw [hall v]
      simp
    simp [this]
  have hflip :
      List.zipWith (fun face fl => if face.all (fun vi => vertexMoves g line vi) then !fl else fl)
        g.faces_vertices g.faces_flipped = g.faces_flipped := by
    apply zipWith_eq_right _ _ _ hlen
    intro face hface fl
    have hne : face ≠ [] := hfaces face hface
    have hfalse : face.all (fun vi => vertexMoves g line vi) = false := by
      cases face with
      | nil => exact absurd rfl hne
      | cons a l => simp [List.all_cons, hmv a]
    rw [hfalse]
    simp
  have hfold : foldGraph g line t = g := by
    obtain ⟨vc, fv, fc, ff⟩ := g
    simp only [foldGraph] at *
    rw [hcoords, hflip]
  exact ⟨hfold, by rw [foldGraphOutcome, hfold]⟩

/-- Witness for the amended C3 at a concrete degenerate line and one-face
mesh. -/
theorem degenerate_fold_noop_witness :
    foldGraph ⟨[(2, 0)], [[0]], ["image"], [false]⟩ ⟨(1, 1), (1, 1)⟩ FoldType.mountain =
      ⟨[(2, 0)], [[0]], ["image"], [false]⟩ ∧
    foldGraphOutcome ⟨[(2, 0)], [[0]], ["image"], [false]⟩ ⟨(1, 1), (1, 1)⟩ FoldType.mountain =
      Except.ok ⟨[(2, 0)], [[0]], ["image"], [false]⟩ :=
  degenerate_fold_noop ⟨[(2, 0)], [[0]], ["image"], [false]⟩ ⟨(1, 1), (1, 1)⟩
    FoldType.mountain rfl (by simp) rfl

/-- The same geometric crease line with its endpoints swapped; swapping
negates the normal, so the opposite side becomes the active one. -/
def reverseLine (line : Line) : Line := ⟨line.p2, line.p1⟩

lemma len2_reverse (line : Line) : len2 (reverseLine line) = len2 line := by
  simp only [len2, ldx, ldy, reverseLine]
  ring

lemma sval_reverse (line : Line) (w : Vec) :
    sval (reverseLine line) w = - sval line w := by
  simp only [sval, ldx, ldy, reverseLine]
  ring

lemma activeB_reverse_reflect (line : Line) (v : Vec) (h : len2 line ≠ 0) :
    activeB (reverseLine line) (reflectV line v) = activeB line v := by
  have h1 : sval (reverseLine line) (reflectV line v) = sval line v := by
    rw [sval_reverse, sval_reflect line v h]
    ring
  simp only [activeB, h1, len2_reverse]

/-- C7 counterexample: for `sqGraph`'s single face, every vertex is in the
active set of `yAxis`, yet applying `foldGraph` twice along the *same* line
leaves the `flipped` flag at `true`, not back at its original `false`: after
the first fold the face sits on the negative side of the crease, so the
second fold is a no-op and does not toggle the flag again. -/
theorem double_fold_same_line_cex :
    sqGraph.faces_flipped = [false] ∧
    sqGraph.faces_vertices = [[0, 1, 2, 3]] ∧
    (∀ vi ∈ ([0, 1, 2, 3] : List ℕ), vertexMoves sqGraph yAxis vi = true) ∧
    (foldGraph (foldGraph sqGraph yAxis FoldType.valley) yAxis
        FoldType.valley).faces_flipped = [true] := by
  refine ⟨rfl, rfl, ?_, ?_⟩
  · intro vi hvi
    fin_cases hvi <;>
      norm_num [vertexMoves, sqGraph, yAxis, activeB, sval, len2, ldx, ldy]
  · norm_num [foldGraph, vertexMoves, sqGraph, yAxis, activeB, sval, len2, ldx, ldy,
      reflectV]

/-- C7 amended: for a face all of whose vertices are active, the fold toggles
its flag; folding a second time across the same geometric crease line *with
the endpoints reversed* (which makes the moved side active again, realising
"folding the face back from its current position") toggles it again,
returning the flag to its original value.  A second fold along the
unreversed line leaves the moved face inactive and is a no-op on it (see the
counterexample). -/
theorem double_fold_reversed_restores (g : Graph) (line : Line) (t t' : FoldType)
    (hnd : line.p1 ≠ line.p2) (i : ℕ) (face : List ℕ) (fl : Bool)
    (hface : g.faces_vertices[i]? = some face) (hfl : g.faces_flipped[i]? = some fl)
    (hall : ∀ vi ∈ face, ActiveIdx g line vi) :
    (foldGraph (foldGraph g line t) (reverseLine line) t').faces_flipped[i]? =
      some fl := by
  have hpos := len2_pos_of_ne line hnd
  have hallb : ∀ vi ∈ face, vertexMoves g line vi = true := fun vi hvi =>
    (vertexMoves_iff_activeIdx g line vi hpos).mpr (hall vi hvi)
  have hb1 : face.all (fun vi => vertexMoves g line vi) = true :=
    List.all_eq_true.mpr hallb
  have hfl1 : (foldGraph g line t).faces_flipped[i]? = some (!fl) := by
    rw [foldGraph_flipped_getElem g line t i face fl hface hfl, hb1]
    simp
  have hface1 : (foldGraph g line t).faces_vertices[i]? = some face := by
    rw [foldGraph_faces]
    exact hface
  have hallb1 : ∀ vi ∈ face, vertexMoves (foldGraph g line t) (reverseLine line) vi = true := by
    intro vi hvi
    have hmv := hallb vi hvi
    unfold vertexMoves at hmv
    cases hv : g.vertices_coords[vi]? with
    | none => rw [hv] at hmv; simp at hmv
    | some v =>
        rw [hv] at hmv
        have hmv' : activeB line v = true := hmv
        have hco : (foldGraph g line t).vertices_coords[vi]? = some (reflectV line v) := by
          rw [foldGraph_coords_getElem g line t vi v hv, hmv']
          simp
        unfold vertexMoves
        rw [hco]
        show activeB (reverseLine line) (reflectV line v) = true
        rw [activeB_reverse_reflect line v (ne_of_gt hpos)]
        exact hmv'
  have hb2 : face.all (fun vi => vertexMoves (foldGraph g line t) (reverseLine line) vi) = true :=
    List.all_eq_true.mpr hallb1
  rw [foldGraph_flipped_getElem (foldGraph g line t) (reverseLine line) t' i face (!fl)
    hface1 hfl1, hb2]
  simp

/-- Witness for the amended C7: folding `sqGraph` across `yAxis` and back
across the reversed line returns the face's flag to `false`. -/
theorem double_fold_reversed_restores_witness :
    (foldGraph (foldGraph sqGraph yAxis FoldType.valley) (reverseLine yAxis)
        FoldType.valley).faces_flipped[0]? = some false := by
  have hall : ∀ vi ∈ ([0, 1, 2, 3] : List ℕ), ActiveIdx sqGraph yAxis vi := by
    have hmv : ∀ j : ℕ, vertexMoves sqGraph yAxis j = true → ActiveIdx sqGraph yAxis j :=
      fun j h =>
        (vertexMoves_iff_activeIdx sqGraph yAxis j (by norm_num [len2, ldx, ldy, yAxis])).mp h
    intro vi hvi
    fin_cases hvi <;>
      exact hmv _ (by norm_num [vertexMoves, sqGraph, yAxis, activeB, sval, len2, ldx, ldy])
  exact double_fold_reversed_restores sqGraph yAxis FoldType.valley FoldType.valley
    (by decide) 0 [0, 1, 2, 3] false rfl rfl hall

lemma reachable_history_ne_nil (pm : Graph) (s : EngineState) (h : Reachable pm s) :
    s.history ≠ [] := by
  induction h with
  | start => simp [startEngine, engineInit]
  | fold s line t _ ih => simp [engineExecuteFold]
  | undo s _ ih =>
      unfold engineUndo
      by_cases hc : 1 < s.history.length
      · rw [if_pos hc]
        have : (s.history.dropLast).length = s.history.length - 1 := List.length_dropLast _
        apply List.ne_nil_of_length_pos
        simp only [this]
        omega
      · rw [if_neg hc]
        exact ih
  | reset s _ ih =>
      unfold engineReset
      by_cases hc : 0 < s.history.length
      · rw [if_pos hc]
        simp [engineInit]
      · rw [if_neg hc]
        exact ih

/-- C4: at every reachable engine state, `canUndo()` answers whether history
holds more than one entry; `undo()` is a silent no-op exactly when history
holds one entry (the initial state — reachable histories are never empty),
and otherwise pops the top entry and makes the live graph (a deep copy of)
the new top. -/
theorem undo_canUndo_spec (pm : Graph) (s : EngineState) (h : Reachable pm s) :
    (engineCanUndo s = true ↔ 1 < s.history.length) ∧
    1 ≤ s.history.length ∧
    (s.history.length = 1 → engineUndo s = s) ∧
    (1 < s.history.length →
      (engineUndo s).history = s.history.dropLast ∧
      (engineUndo s).history.getLast? = some (engineUndo s).graph) := by
  have hne := reachable_history_ne_nil pm s h
  have hpos : 0 < s.history.length := List.length_pos.mpr hne
  refine ⟨by simp [engineCanUndo], by omega, ?_, ?_⟩
  · intro h1
    unfold engineUndo
    rw [if_neg (by omega)]
  · intro h1
    unfold engineUndo
    rw [if_pos h1]
    refine ⟨rfl, ?_⟩
    have hdne : s.history.dropLast ≠ [] := by
      apply List.ne_nil_of_length_pos
      rw [List.length_dropLast]
      omega
    rw [List.getLastD_eq_getLast?]
    cases hg : (s.history.dropLast).getLast? with
    | none => rw [List.getLast?_eq_none_iff] at hg; exact absurd hg hdne
    | some x => rfl

/-- Witness for C4 at the freshly initialised engine (history `[pm]`) and at
the engine after one executed fold (history of length 2). -/
theorem undo_canUndo_spec_witness :
    (engineUndo (startEngine sqGraph) = startEngine sqGraph) ∧
    (engineUndo (engineExecuteFold (startEngine sqGraph) yAxis FoldType.valley)).history =
      (engineExecuteFold (startEngine sqGraph) yAxis FoldType.valley).history.dropLast := by
  constructor
  · exact (undo_canUndo_spec sqGraph (startEngine sqGraph) Reachable.start).2.2.1 rfl
  · exact ((undo_canUndo_spec sqGraph
      (engineExecuteFold (startEngine sqGraph) yAxis FoldType.valley)
      (Reachable.fold (startEngine sqGraph) yAxis FoldType.valley Reachable.start)).2.2.2
      (by simp [engineExecuteFold, startEngine, engineInit])).1

/-- C5: after any sequence of executed folds from a freshly loaded engine,
`reset()` clears the history and reseeds it with the single initial-mesh
entry: the resulting state is exactly the freshly initialised engine — live
graph equal to the initial mesh and history depth 1. -/
theorem reset_restores_initial (pm : Graph) (ops : List (Line × FoldType)) :
    engineReset (engineFolds (startEngine pm) ops) pm = startEngine pm ∧
    (engineReset (engineFolds (startEngine pm) ops) pm).history = [pm] ∧
    (engineReset (engineFolds (startEngine pm) ops) pm).graph = pm := by
  have hne : ∀ (s : EngineState) (l : List (Line × FoldType)),
      s.history ≠ [] → (engineFolds s l).history ≠ [] := by
    intro s l
    induction l generalizing s with
    | nil => intro hs; exact hs
    | cons op rest ih =>
        intro _
        exact ih (engineExecuteFold s op.1 op.2) (by simp [engineExecuteFold])
  have hpos : 0 < (engineFolds (startEngine pm) ops).history.length :=
    List.length_pos.mpr (hne (startEngine pm) ops (by simp [startEngine, engineInit]))
  have hres : engineReset (engineFolds (startEngine pm) ops) pm = startEngine pm := by
    unfold engineReset
    rw [if_pos hpos]
    rfl
  exact ⟨hres, by rw [hres]; rfl, by rw [hres]; rfl⟩

lemma foldl_minBy_le_init (f : Vec → ℚ) (l : List Vec) :
    ∀ a : ℚ, l.foldl (fun m w => min m (f w)) a ≤ a := by
  induction l with
  | nil => intro a; simp
  | cons y t ih => intro a; exact le_trans (ih (min a (f y))) (min_le_left a (f y))

lemma foldl_minBy_le_of_mem (f : Vec → ℚ) (l : List Vec) (x : Vec) (hx : x ∈ l) :
    ∀ a : ℚ, l.foldl (fun m w => min m (f w)) a ≤ f x := by
  induction l with
  | nil => cases hx
  | cons y t ih =>
      intro a
      rcases List.mem_cons.mp hx with h | h
      · subst h
        exact le_trans (foldl_minBy_le_init f t (min a (f x))) (min_le_right a (f x))
      · exact ih h (min a (f y))

lemma le_foldl_minBy (f : Vec → ℚ) (l : List Vec) (b : ℚ) (hb : ∀ x ∈ l, b ≤ f x) :
    ∀ a : ℚ, b ≤ a → b ≤ l.foldl (fun m w => min m (f w)) a := by
  induction l with
  | nil => intro a ha; simpa using ha
  | cons y t ih =>
      intro a ha
      exact ih (fun x hx => hb x (List.mem_cons_of_mem y hx)) (min a (f y))
        (le_min ha (hb y (List.mem_cons_self y t)))

lemma foldl_maxBy_ge_init (f : Vec → ℚ) (l : List Vec) :
    ∀ a : ℚ, a ≤ l.foldl (fun m w => max m (f w)) a := by
  induction l with
  | nil => intro a; simp
  | cons y t ih => intro a; exact le_trans (le_max_left a (f y)) (ih (max a (f y)))

lemma foldl_maxBy_ge_of_mem (f : Vec → ℚ) (l : List Vec) (x : Vec) (hx : x ∈ l) :
    ∀ a : ℚ, f x ≤ l.foldl (fun m w => max m (f w)) a := by
  induction l with
  | nil => cases hx
  | cons y t ih =>
      intro a
      rcases List.mem_cons.mp hx with h | h
      · subst h
        exact le_trans (le_max_right a (f x)) (foldl_maxBy_ge_init f t (max a (f x)))
      · exact ih h (max a (f y))

lemma foldl_maxBy_lt (f : Vec → ℚ) (l : List Vec) (c : ℚ) (hc : ∀ x ∈ l, f x < c) :
    ∀ a : ℚ, a < c → l.foldl (fun m w => max m (f w)) a < c := by
  induction l with
  | nil => intro a ha; simpa using ha
  | cons y t ih =>
      intro a ha
      exact ih (fun x hx => hc x (List.mem_cons_of_mem y hx)) (max a (f y))
        (max_lt ha (hc y (List.mem_cons_self y t)))

/-- C10: for a mesh with at least one vertex, `validateState` returns `true`
iff all x-coordinates fit in a half-open interval of width 1.1 and all
y-coordinates likewise — i.e. iff the bounding box has width and height
strictly below 1.1 — and its result depends on the vertex-coordinate
sequence alone, never on faces, classes or flipped flags. -/
theorem validateState_iff_bbox (g : Graph) (v : Vec) (vs : List Vec)
    (hv : g.vertices_coords = v :: vs) :
    (validateState g = true ↔
      ((∃ x0 : ℚ, ∀ p ∈ g.vertices_coords, x0 ≤ p.1 ∧ p.1 < x0 + 11/10) ∧
       (∃ y0 : ℚ, ∀ p ∈ g.vertices_coords, y0 ≤ p.2 ∧ p.2 < y0 + 11/10))) ∧
    (∀ g' : Graph, g'.vertices_coords = g.vertices_coords →
      validateState g' = validateState g) := by
  constructor
  · unfold validateState
    rw [hv]
    simp only [decide_eq_true_eq]
    constructor
    · rintro ⟨hx, hy⟩
      constructor
      · refine ⟨vs.foldl (fun m w => min m w.1) v.1, ?_⟩
        intro p hp
        have hmin : vs.foldl (fun m w => min m w.1) v.1 ≤ p.1 := by
          rcases List.mem_cons.mp hp with h | h
          · subst h; exact foldl_minBy_le_init (fun w => w.1) vs p.1
          · exact foldl_minBy_le_of_mem (fun w => w.1) vs p h v.1
        have hmax : p.1 ≤ vs.foldl (fun m w => max m w.1) v.1 := by
          rcases List.mem_cons.mp hp with h | h
          · subst h; exact foldl_maxBy_ge_init (fun w => w.1) vs p.1
          · exact foldl_maxBy_ge_of_mem (fun w => w.1) vs p h v.1
        exact ⟨hmin, by linarith⟩
      · refine ⟨vs.foldl (fun m w => min m w.2) v.2, ?_⟩
        intro p hp
        have hmin : vs.foldl (fun m w => min m w.2) v.2 ≤ p.2 := by
          rcases List.mem_cons.mp hp with h | h
          · subst h; exact foldl_minBy_le_init (fun w => w.2) vs p.2
          · exact foldl_minBy_le_of_mem (fun w => w.2) vs p h v.2
        have hmax : p.2 ≤ vs.foldl (fun m w => max m w.2) v.2 := by
          rcases List.mem_cons.mp hp with h | h
          · subst h; exact foldl_maxBy_ge_init (fun w => w.2) vs p.2
          · exact foldl_maxBy_ge_of_mem (fun w => w.2) vs p h v.2
        exact ⟨hmin, by linarith⟩
    · rintro ⟨⟨x0, hx0⟩, ⟨y0, hy0⟩⟩
      have hminx : x0 ≤ vs.foldl (fun m w => min m w.1) v.1 :=
        le_foldl_minBy (fun w => w.1) vs x0
          (fun x hx => (hx0 x (List.mem_cons_of_mem v hx)).1) v.1
          (hx0 v (List.mem_cons_self v vs)).1
      have hmaxx : vs.foldl (fun m w => max m w.1) v.1 < x0 + 11/10 :=
        foldl_maxBy_lt (fun w => w.1) vs (x0 + 11/10)
          (fun x hx => (hx0 x (List.mem_cons_of_mem v hx)).2) v.1
          (hx0 v (List.mem_cons_self v vs)).2
      have hminy : y0 ≤ vs.foldl (fun m w => min m w.2) v.2 :=
        le_foldl_minBy (fun w => w.2) vs y0
          (fun x hx => (hy0 x (List.mem_cons_of_mem v hx)).1) v.2
          (hy0 v (List.mem_cons_self v vs)).1
      have hmaxy : vs.foldl (fun m w => max m w.2) v.2 < y0 + 11/10 :=
        foldl_maxBy_lt (fun w => w.2) vs (y0 + 11/10)
          (fun x hx => (hy0 x (List.mem_cons_of_mem v hx)).2) v.2
          (hy0 v (List.mem_cons_self v vs)).2
      exact ⟨by linarith, by linarith⟩
  · intro g' hg'
    unfold validateState
    rw [hg']

/-- Witness for C10: the unit-square mesh fits the 1.1 bounding box, and
`validateState` does not see the face data: replacing classes, faces and
flags leaves its verdict unchanged. -/
theorem validateState_iff_bbox_witness :
    (validateState ⟨[(0, 0), (1, 0), (0, 1)], [[0, 1, 2]], ["plain"], [false]⟩ = true ↔
      ((∃ x0 : ℚ, ∀ p ∈ (⟨[(0, 0), (1, 0), (0, 1)], [[0, 1, 2]], ["plain"], [false]⟩ :
          Graph).vertices_coords, x0 ≤ p.1 ∧ p.1 < x0 + 11/10) ∧
       (∃ y0 : ℚ, ∀ p ∈ (⟨[(0, 0), (1, 0), (0, 1)], [[0, 1, 2]], ["plain"], [false]⟩ :
          Graph).vertices_coords, y0 ≤ p.2 ∧ p.2 < y0 + 11/10))) ∧
    validateState ⟨[(0, 0), (1, 0), (0, 1)], [], [], []⟩ =
      validateState ⟨[(0, 0), (1, 0), (0, 1)], [[0, 1, 2]], ["plain"], [false]⟩ := by
  have happ := validateState_iff_bbox
    ⟨[(0, 0), (1, 0), (0, 1)], [[0, 1, 2]], ["plain"], [false]⟩ (0, 0) [(1, 0), (0, 1)] rfl
  exact ⟨happ.1, happ.2 ⟨[(0, 0), (1, 0), (0, 1)], [], [], []⟩ rfl⟩

/-- C6 (code bug): the source's `validateState` only checks the bounding
box; a mesh whose sole (and hence topmost) face is tagged `"plain"` — not
`"decorative"` — still validates as solved, contradicting the spec's
solved-state policy that every topmost face must carry the decorative tag.
The face-class data is never consulted. -/
theorem validateState_ignores_decorative_tag :
    validateState ⟨[(0, 0), (1, 0), (0, 1)], [[0, 1, 2]], ["plain"], [false]⟩ = true ∧
    (∀ c ∈ (⟨[(0, 0), (1, 0), (0, 1)], [[0, 1, 2]], ["plain"], [false]⟩ :
        Graph).faces_classes, c ≠ "decorative") := by
  constructor
  · norm_num [validateState]
  · intro c hc
    simp only [List.mem_singleton] at hc
    subst hc
    decide

/-- C8: for three source points whose determinant has magnitude at least
1e-6 (in particular, three non-collinear points) and any three destination
points, `calculateAffineTransform` returns the unique affine matrix mapping
each source point to its paired destination point — exactly, over rational
arithmetic. -/
theorem affine_transform_exact (src dst : Tri)
    (hden : 1/1000000 ≤ |affineDen src|) :
    (applyAffine (calculateAffineTransform src dst) src.1 = dst.1 ∧
     applyAffine (calculateAffineTransform src dst) src.2.1 = dst.2.1 ∧
     applyAffine (calculateAffineTransform src dst) src.2.2 = dst.2.2) ∧
    (∀ m : Affine,
      applyAffine m src.1 = dst.1 → applyAffine m src.2.1 = dst.2.1 →
      applyAffine m src.2.2 = dst.2.2 → m = calculateAffineTransform src dst) := by
  obtain ⟨⟨x0, y0⟩, ⟨x1, y1⟩, ⟨x2, y2⟩⟩ := src
  obtain ⟨⟨u0, v0⟩, ⟨u1, v1⟩, ⟨u2, v2⟩⟩ := dst
  simp only [affineDen] at hden
  have hnlt : ¬ |x0 * (y1 - y2) - y0 * (x1 - x2) + (x1 * y2 - x2 * y1)| < 1/1000000 :=
    not_lt.mpr hden
  have hne : x0 * (y1 - y2) - y0 * (x1 - x2) + (x1 * y2 - x2 * y1) ≠ 0 := by
    intro h0
    rw [h0] at hden
    norm_num at hden
  simp only [calculateAffineTransform]
  rw [if_neg hnlt]
  constructor
  · refine ⟨?_, ?_, ?_⟩ <;>
      · simp only [applyAffine, Prod.ext_iff]
        constructor <;>
          · field_simp
            ring
  · intro m h0 h1 h2
    obtain ⟨ma, mb, mc, md, me, mf⟩ := m
    simp only [applyAffine, Prod.ext_iff] at h0 h1 h2
    obtain ⟨h0x, h0y⟩ := h0
    obtain ⟨h1x, h1y⟩ := h1
    obtain ⟨h2x, h2y⟩ := h2
    simp only [Affine.mk.injEq]
    refine ⟨?_, ?_, ?_, ?_, ?_, ?_⟩
    · rw [eq_div_iff hne]
      linear_combination (y1 - y2) * h0x + (y2 - y0) * h1x + (y0 - y1) * h2x
    · rw [eq_div_iff hne]
      linear_combination (y1 - y2) * h0y + (y2 - y0) * h1y + (y0 - y1) * h2y
    · rw [eq_div_iff hne]
      linear_combination (x2 - x1) * h0x + (x0 - x2) * h1x + (x1 - x0) * h2x
    · rw [eq_div_iff hne]
      linear_combination (x2 - x1) * h0y + (x0 - x2) * h1y + (x1 - x0) * h2y
    · rw [eq_div_iff hne]
      linear_combination (x1 * y2 - x2 * y1) * h0x + (x2 * y0 - x0 * y2) * h1x +
        (x0 * y1 - x1 * y0) * h2x
    · rw [eq_div_iff hne]
      linear_combination (x1 * y2 - x2 * y1) * h0y + (x2 * y0 - x0 * y2) * h1y +
        (x0 * y1 - x1 * y0) * h2y

/-- Witness for C8 at a concrete non-collinear source triangle. -/
theorem affine_transform_exact_witness :
    (1/1000000 : ℚ) ≤ |affineDen ((0, 0), (1, 0), (0, 1))| ∧
    applyAffine (calculateAffineTransform ((0, 0), (1, 0), (0, 1)) ((1, 2), (3, 5), (4, 7)))
      (0, 0) = (1, 2) := by
  constructor
  · norm_num [affineDen]
  · exact (affine_transform_exact ((0, 0), (1, 0), (0, 1)) ((1, 2), (3, 5), (4, 7))
      (by norm_num [affineDen])).1.1

end Origami
